import Mathlib

/-!
Verification of the signaling-channel transport layer (`src/lib/serverconnection.ts`)
and of the `BaseConnection` lifecycle (`src/unnamed/part_000`).

The embedding models:
* the newline-delimited stream reassembly of `HttpRequest._handleStream`
  together with `HttpRequestLongPoll.getMessages` / the line-offset buffer;
* the hand-off rule of `HttpRequestLongPoll.needsClearPreviousRequest`;
* the public `HttpRequest.send` / `start` / `close` surface;
* the `ServerConnection` primary-to-fallback failover machine with its
  intercepted emit functions;
* `BaseConnection.setCloseTimeout` / `clearCloseTimeout` and the armed
  close-timeout callback.

Response bodies are `List Char` (a string is its character sequence); timers are
explicit state (an armed flag, or a set of pending timer ids); `JSON.parse` is an
abstract `parse : List Char → Option α` that returns `none` on failure, composed
with the out-of-range access `messages[i]` (which yields `undefined` in the
source and hence a parse failure).
-/

/-! ## Splitting response bodies (`HttpRequestLongPoll.getMessages`) -/

/-- `responseText.split("\n")` on a character list: `splitOnNl [] = [[]]`, and a
trailing newline produces a final empty fragment. -/
def splitOnNl : List Char → List (List Char)
  | [] => [[]]
  | c :: cs =>
    if c = '\n' then [] :: splitOnNl cs
    else
      match splitOnNl cs with
      | [] => [[c]]
      | l :: ls => (c :: l) :: ls

/-- `getMessages()`: split the raw response body on newline boundaries. -/
def HttpRequestLongPoll.getMessages (responseText : List Char) : List (List Char) :=
  splitOnNl responseText

/-- The final message stream assembled from its lines, each newline-terminated. -/
def joinNl (L : List (List Char)) : List Char :=
  L.foldr (fun l acc => l ++ '\n' :: acc) []

/-- Whether a body ends in a trailing newline. -/
def endsNl (s : List Char) : Bool :=
  decide (s.getLast? = some '\n')

/-! ## The line cursor and offset buffer of one `HttpRequestLongPoll` -/

/-- The mutable stream-reading state of one `HttpRequestLongPoll`: `index` is the
next unread line offset (initially 1), `buffer` the FIFO of deferred line
offsets. -/
structure PollBufState where
  index : Nat
  buffer : List Nat
deriving DecidableEq, Repr

/-- A fresh `HttpRequestLongPoll` starts with `index = 1` and an empty buffer. -/
def HttpRequestLongPoll.initState : PollBufState := ⟨1, []⟩

/-- The `while (httpRequest.hasBufferedIndices())` loop of `_handleStream`: shift
an offset, re-read that line from the latest snapshot, emit it if it parses;
on a parse failure unshift the offset back to the front and stop.  An offset
beyond the end of `messages` reads `undefined`, which fails to parse. -/
def drainBuffer {α : Type} (parse : List Char → Option α) (messages : List (List Char)) :
    List Nat → List Nat × List α
  | [] => ([], [])
  | i :: rest =>
    match messages[i]?.bind parse with
    | none => (i :: rest, [])
    | some v =>
      let r := drainBuffer parse messages rest
      (r.1, v :: r.2)

/-- The tail step of `_handleStream`: read `messages[index]`; if truthy advance
the index, and either push the offset just read to the buffer (when it was the
last element of `messages`, i.e. a possibly-incomplete final line) or parse and
emit it (a parse failure logs and drops the line). -/
def handleTail {α : Type} (parse : List Char → Option α) (messages : List (List Char))
    (st : PollBufState) : PollBufState × List α :=
  match messages[st.index]? with
  | none => (st, [])
  | some [] => (st, [])
  | some (c :: cs) =>
    if st.index + 1 = messages.length then
      (⟨st.index + 1, st.buffer ++ [st.index]⟩, [])
    else
      match parse (c :: cs) with
      | none => (⟨st.index + 1, st.buffer⟩, [])
      | some v => (⟨st.index + 1, st.buffer⟩, [v])

/-- `HttpRequest._handleStream` on one response snapshot: split the body, drain
the offset buffer, then read at most one new line. Returns the new cursor state
and the emitted messages, in emission order. -/
def HttpRequest.handleStream {α : Type} (parse : List Char → Option α)
    (responseText : List Char) (st : PollBufState) : PollBufState × List α :=
  let ms := HttpRequestLongPoll.getMessages responseText
  let drained := drainBuffer parse ms st.buffer
  let tl := handleTail parse ms ⟨st.index, drained.1⟩
  (tl.1, drained.2 ++ tl.2)

/-- Process a sequence of response snapshots in order, threading the cursor
state and concatenating the emitted messages. -/
def runSnapshots {α : Type} (parse : List Char → Option α) (st : PollBufState) :
    List (List Char) → PollBufState × List α
  | [] => (st, [])
  | s :: ss =>
    let r := HttpRequest.handleStream parse s st
    let r2 := runSnapshots parse r.1 ss
    (r2.1, r.2 ++ r2.2)

/-- A concrete decidable parser used to instantiate witnesses: a line parses
exactly when it is nonempty and ends with a semicolon. -/
def testParse : List Char → Option (List Char) :=
  fun s => if s ≠ [] ∧ s.getLast? = some ';' then some s else none

/-- The cursor-position invariant tied to a final line list `L`: position `m`
means lines `1 .. m-1` have been emitted, and either the cursor sits cleanly at
line `m` with an empty buffer, or line `m` was read as a possibly-incomplete
snapshot tail and its offset deferred (index `m+1`, buffer `[m]`). -/
def StreamInv (n : Nat) (st : PollBufState) (m : Nat) : Prop :=
  (1 ≤ m ∧ m ≤ n ∧ st = ⟨m, []⟩) ∨ (1 ≤ m ∧ m + 1 ≤ n ∧ st = ⟨m + 1, [m]⟩)

/-- The messages of lines `a .. b-1` of the final stream, in order. -/
def seg {α : Type} (parse : List Char → Option α) (L : List (List Char)) (a b : Nat) :
    List α :=
  ((L.take b).drop a).filterMap parse

/-- Hypotheses on the final stream lines under which replay is faithful: no line
contains a newline; every line after the first is nonempty and parses; and no
proper prefix of a line after the first parses (a partially received line never
parses early). -/
def GoodLines {α : Type} (parse : List Char → Option α) (L : List (List Char)) : Prop :=
  (∀ l ∈ L, ('\n' : Char) ∉ l) ∧
  (∀ i, i < L.length → 1 ≤ i → L.getD i [] ≠ [] ∧ (parse (L.getD i [])).isSome = true) ∧
  (∀ i, i < L.length → 1 ≤ i →
    ∀ k, k < (L.getD i []).length → parse ((L.getD i []).take k) = none)

/-! ## `HttpRequestLongPoll` request hand-off (`needsClearPreviousRequest`) -/

/-- The retained predecessor of a chained poll request: all the hand-off rule
inspects is its `XMLHttpRequest.readyState`. -/
structure PrevReq where
  readyState : Nat
deriving DecidableEq, Repr

/-- The observable state of one `HttpRequestLongPoll` underlying request:
its own `readyState`, HTTP `status`, `responseText`, and the at-most-one
retained `previousRequest`. -/
structure LongPollReq where
  readyState : Nat
  status : Nat
  responseText : List Char
  previousRequest : Option PrevReq
deriving DecidableEq, Repr

/-- `!!previousRequest && previousRequest._xmlHttpRequest.readyState < 2`. -/
def prevBeforeHeaders : Option PrevReq → Bool
  | none => false
  | some p => decide (p.readyState < 2)

/-- `isSuccess()`: the response progressed past the header-received state,
returned status 200, and has a non-empty body. -/
def HttpRequestLongPoll.isSuccess (r : LongPollReq) : Bool :=
  decide (2 < r.readyState) && decide (r.status = 200) && decide (r.responseText ≠ [])

/-- `needsClearPreviousRequest()`: this request is at the header-received state
with a predecessor present, or the predecessor is still before header-received. -/
def HttpRequestLongPoll.needsClearPreviousRequest (r : LongPollReq) : Bool :=
  (decide (r.readyState = 2) && r.previousRequest.isSome) ||
  (r.previousRequest.isSome && prevBeforeHeaders r.previousRequest)

/-- Observable side effects of a readystatechange round. -/
inductive PollAct
  | abortPrevious
  | onSuccessCall
deriving DecidableEq, Repr

/-- `clearPreviousRequest()`: abort the predecessor and release the reference
(a no-op when none is retained). -/
def HttpRequestLongPoll.clearPreviousRequest (r : LongPollReq) : LongPollReq × List PollAct :=
  match r.previousRequest with
  | none => (r, [])
  | some _ => ({ r with previousRequest := none }, [.abortPrevious])

/-- The `onreadystatechange` handler installed by the constructor: clear the
predecessor when the hand-off rule demands it, otherwise report success when
`isSuccess()` holds. -/
def HttpRequestLongPoll.onReadyStateChange (r : LongPollReq) : LongPollReq × List PollAct :=
  if HttpRequestLongPoll.needsClearPreviousRequest r then
    HttpRequestLongPoll.clearPreviousRequest r
  else if HttpRequestLongPoll.isSuccess r then (r, [.onSuccessCall])
  else (r, [])

/-! ## The public `HttpRequest` surface (`send` / `start` / `close`) -/

/-- An outbound message: only its `type` field is inspected by `send` (an absent
or empty `type` is falsy); the rest of the payload is an opaque tag. -/
structure SendData where
  type : String
  payloadTag : Nat
deriving DecidableEq, Repr

/-- Observable effects of the `HttpRequest` public operations. -/
inductive HttpOut
  | errorEvent (msg : String)
  | postMessage (url : String) (data : SendData)
  | streamStarted
deriving DecidableEq, Repr

/-- The instance state of an `HttpRequest`: the `_disconnected` flag (initially
true), the nullable `_id` and `_httpUrl`, the outbound `_messagesQueue`, whether
`_httpRequest` is set, and the immutable `_baseUrl`. -/
structure HttpRequestState where
  disconnected : Bool
  idField : Option String
  httpUrl : Option String
  messagesQueue : List SendData
  httpRequestActive : Bool
  baseUrl : String
deriving DecidableEq, Repr

/-- The state right after the constructor runs. -/
def HttpRequest.initState (baseUrl : String) : HttpRequestState :=
  ⟨true, none, none, [], false, baseUrl⟩

/-- JavaScript truthiness of the nullable string `_id`: `undefined` and `""` are
falsy. -/
def truthyOptStr : Option String → Bool
  | none => false
  | some s => decide (s ≠ "")

/-- `HttpRequest.send(data)`: no-op when disconnected; queue when `_id` is not
truthy; reject a message without a truthy `type` with an `Error` event;
otherwise POST it out-of-band. -/
def HttpRequest.send (data : SendData) (st : HttpRequestState) :
    HttpRequestState × List HttpOut :=
  if st.disconnected then (st, [])
  else if truthyOptStr st.idField = false then
    ({ st with messagesQueue := st.messagesQueue ++ [data] }, [])
  else if data.type = "" then (st, [.errorEvent "Invalid message"])
  else (st, [.postMessage ((st.httpUrl.getD "") ++ "/" ++ data.type.toLower) data])

/-- `HttpRequest.start(id, token)`: no-op when a stream exists or the transport
is already connected; otherwise record `_id`, build `_httpUrl`, start the XHR
stream, and clear `_disconnected` (in that order, atomically here). -/
def HttpRequest.start (id token : String) (st : HttpRequestState) :
    HttpRequestState × List HttpOut :=
  if st.httpRequestActive || !st.disconnected then (st, [])
  else
    ({ st with
        idField := some id
        httpUrl := some (st.baseUrl ++ "/" ++ id ++ "/" ++ token)
        httpRequestActive := true
        disconnected := false }, [.streamStarted])

/-- `HttpRequest.close()`: idempotent; aborts in-flight work and marks
disconnected.  It does not reset `_httpRequest`, `_id` or the queue. -/
def HttpRequest.close (st : HttpRequestState) : HttpRequestState × List HttpOut :=
  if st.disconnected then (st, []) else ({ st with disconnected := true }, [])

/-- One public call on an `HttpRequest`. -/
inductive HttpApiCall
  | send (d : SendData)
  | start (id token : String)
  | close
deriving DecidableEq, Repr

/-- Run a sequence of public calls, threading state and collecting effects. -/
def runHttpApi (st : HttpRequestState) : List HttpApiCall → HttpRequestState × List HttpOut
  | [] => (st, [])
  | c :: cs =>
    let r := match c with
      | .send d => HttpRequest.send d st
      | .start id token => HttpRequest.start id token st
      | .close => HttpRequest.close st
    let r2 := runHttpApi r.1 cs
    (r2.1, r.2 ++ r2.2)

/-- A public call whose session id argument is nonempty (truthy), for the
non-`start` calls vacuously. -/
def nonEmptyStartIds : HttpApiCall → Bool
  | .start id _ => decide (id ≠ "")
  | _ => true

/-! ## `ServerConnection` failover machine -/

/-- The two wrapped transports. -/
inductive Transport
  | ws
  | http
deriving DecidableEq, Repr, Fintype

/-- Events a wrapped transport can emit: the two the interceptor inspects, and
any other event kind. -/
inductive SockEv
  | message
  | disconnected
  | other
deriving DecidableEq, Repr, Fintype

/-- Session events after `start`: the open-timeout firing, an emit from either
wrapped transport, or `close()` on the channel. -/
inductive SCEv
  | timerFire
  | fromWs (e : SockEv)
  | fromHttp (e : SockEv)
  | closeChannel
deriving DecidableEq, Repr, Fintype

/-- Observable actions of the `ServerConnection`. -/
inductive SCAct
  | wsStartAct
  | wsCloseAct
  | httpStartAct
  | httpCloseAct
  | armOpenTimeout (ms : Nat)
  | cancelOpenTimeout
  | forward (t : Transport) (e : SockEv)
deriving DecidableEq, Repr

/-- The `ServerConnection` instance state: `_currentConnection` and whether
`_socketOpenTimeout` is armed. -/
structure SCState where
  currentConnection : Option Transport
  socketOpenTimeout : Bool
deriving DecidableEq, Repr, Fintype

/-- `const CONNECTION_OPEN_TIMEOUT = 5000`. -/
def CONNECTION_OPEN_TIMEOUT : Nat := 5000

/-- `_startHttp()`: drop current, close the socket, make the `HttpRequest`
current, stop the open-timeout, start the fallback stream. -/
def ServerConnection.startHttp : SCState × List SCAct :=
  (⟨some .http, false⟩, [.wsCloseAct, .cancelOpenTimeout, .httpStartAct])

/-- `_startSocket()` as invoked from `start(id, token)`: close the fallback,
make the socket current, arm the 5000ms open-timeout, start the socket. -/
def ServerConnection.startSocket : SCState × List SCAct :=
  (⟨some .ws, true⟩, [.httpCloseAct, .armOpenTimeout CONNECTION_OPEN_TIMEOUT, .wsStartAct])

/-- `_interceptedSocketEmit`: while the open-timeout is armed, a `Disconnected`
from the socket triggers immediate failover (and is not forwarded) and a
`Message` cancels the timeout; then any event is forwarded only when the socket
is the current connection. -/
def ServerConnection.interceptedSocketEmit (st : SCState) (e : SockEv) :
    SCState × List SCAct :=
  if st.socketOpenTimeout then
    match e with
    | .disconnected => ServerConnection.startHttp
    | .message =>
      let st2 : SCState := ⟨st.currentConnection, false⟩
      (st2, .cancelOpenTimeout ::
        (if st2.currentConnection = some Transport.ws then [.forward .ws .message] else []))
    | .other =>
      (st, if st.currentConnection = some Transport.ws then [.forward .ws .other] else [])
  else
    (st, if st.currentConnection = some Transport.ws then [.forward .ws e] else [])

/-- `_interceptedHttpRequestEmit`: forward only when the `HttpRequest` is the
current connection. -/
def ServerConnection.interceptedHttpRequestEmit (st : SCState) (e : SockEv) :
    SCState × List SCAct :=
  (st, if st.currentConnection = some Transport.http then [.forward .http e] else [])

/-- `close()`: stop the open-timeout, close the current connection, clear it. -/
def ServerConnection.closeStep (st : SCState) : SCState × List SCAct :=
  (⟨none, false⟩,
    match st.currentConnection with
    | some .ws => [.wsCloseAct]
    | some .http => [.httpCloseAct]
    | none => [])

/-- One session event.  The open-timeout callback runs only while the timeout is
armed (a cleared timer does not fire). -/
def ServerConnection.step (st : SCState) : SCEv → SCState × List SCAct
  | .timerFire => if st.socketOpenTimeout then ServerConnection.startHttp else (st, [])
  | .fromWs e => ServerConnection.interceptedSocketEmit st e
  | .fromHttp e => ServerConnection.interceptedHttpRequestEmit st e
  | .closeChannel => ServerConnection.closeStep st

/-- Run a list of session events, collecting actions. -/
def ServerConnection.runEvents (st : SCState) : List SCEv → SCState × List SCAct
  | [] => (st, [])
  | e :: es =>
    let r := ServerConnection.step st e
    let r2 := ServerConnection.runEvents r.1 es
    (r2.1, r.2 ++ r2.2)

/-- How many times the fallback transport was started (one per `_startHttp`). -/
def countFallbackStarts (acts : List SCAct) : Nat :=
  (acts.filter (fun a => a = SCAct.httpStartAct)).length

/-- Session events in which the primary transport emits neither a message nor a
disconnect and the channel is not closed and the open-timeout does not fire:
any fallback-transport emit, or any other socket event kind. -/
def quietEv : SCEv → Bool
  | .fromWs .other => true
  | .fromHttp _ => true
  | _ => false

/-! ## `BaseConnection` close-timeout bookkeeping -/

/-- The lifecycle state of a `BaseConnection`: the `_open` flag, the mutable
public `reconnectable` flag, the `reconnectTimeoutId` handle (0 when none), plus
an explicit model of the host timer table: the pending timer ids and a fresh-id
source (`setTimeout` returns positive ids). -/
structure BCState where
  openFlag : Bool
  reconnectable : Bool
  reconnectTimeoutId : Nat
  pendingTimers : List Nat
  nextTimerId : Nat
deriving DecidableEq, Repr

/-- Effects of the close-timeout callback. -/
inductive BCAct
  | closeCall
deriving DecidableEq, Repr

/-- `setCloseTimeout()`: false (and nothing armed) unless reconnectable and
open; otherwise arm a single 15000ms timer only when none is recorded, and
return true. -/
def BaseConnection.setCloseTimeout (st : BCState) : BCState × Bool :=
  if !st.reconnectable || !st.openFlag then (st, false)
  else if st.reconnectTimeoutId ≠ 0 then (st, true)
  else
    let tid := st.nextTimerId + 1
    ({ st with
        reconnectTimeoutId := tid
        pendingTimers := st.pendingTimers ++ [tid]
        nextTimerId := tid }, true)

/-- `clearCloseTimeout()`: cancel any pending timer and reset the handle. -/
def BaseConnection.clearCloseTimeout (st : BCState) : BCState :=
  { st with
      pendingTimers := st.pendingTimers.erase st.reconnectTimeoutId
      reconnectTimeoutId := 0 }

/-- The armed callback `() => this.open && this.close()` firing: the timer
leaves the pending table, and `close()` is invoked exactly when the connection
is currently open — `reconnectable` is not re-checked at fire time. -/
def BaseConnection.fireCloseTimeout (st : BCState) : BCState × List BCAct :=
  let st2 := { st with pendingTimers := st.pendingTimers.erase st.reconnectTimeoutId }
  if st2.openFlag then (st2, [.closeCall]) else (st2, [])

/-- A connection whose close-timeout was armed while it was reconnectable, after
which `reconnectable` was reset to false; the timer (id 7) is still pending. -/
def reconnectRevokedState : BCState := ⟨true, false, 7, [7], 7⟩

/-- The invariant behind C3 as amended: the outbound queue stays empty, and the
transport is connected only with a truthy session id. -/
def QueueInv (st : HttpRequestState) : Prop :=
  st.messagesQueue = [] ∧ (st.disconnected = false → truthyOptStr st.idField = true)

/-! ## Helper lemmas for the failover machine -/

lemma countFallbackStarts_append (a b : List SCAct) :
    countFallbackStarts (a ++ b) = countFallbackStarts a + countFallbackStarts b := by
  simp [countFallbackStarts, List.filter_append]

lemma runEvents_cons (st : SCState) (e : SCEv) (es : List SCEv) :
    ServerConnection.runEvents st (e :: es) =
      ((ServerConnection.runEvents (ServerConnection.step st e).1 es).1,
        (ServerConnection.step st e).2 ++
          (ServerConnection.runEvents (ServerConnection.step st e).1 es).2) := rfl

lemma quiet_step (e : SCEv) (hq : quietEv e = true) :
    (ServerConnection.step ⟨some Transport.ws, true⟩ e).1 = ⟨some Transport.ws, true⟩ ∧
      countFallbackStarts (ServerConnection.step ⟨some Transport.ws, true⟩ e).2 = 0 := by
  revert hq; revert e; decide

lemma runEvents_quiet (evs : List SCEv) (hq : ∀ e ∈ evs, quietEv e = true) :
    (ServerConnection.runEvents ⟨some Transport.ws, true⟩ evs).1 = ⟨some Transport.ws, true⟩ ∧
      countFallbackStarts (ServerConnection.runEvents ⟨some Transport.ws, true⟩ evs).2 = 0 := by
  induction evs with
  | nil => exact ⟨rfl, rfl⟩
  | cons e es ih =>
    obtain ⟨h1, h2⟩ := quiet_step e (hq e (List.mem_cons_self e es))
    have ih2 := ih (fun x hx => hq x (List.mem_cons_of_mem e hx))
    rw [runEvents_cons, h1]
    exact ⟨ih2.1, by rw [countFallbackStarts_append, h2, ih2.2]⟩

lemma fallback_inv_step (st : SCState) (e : SCEv) (ht : st.socketOpenTimeout = false)
    (hc : st.currentConnection ≠ some Transport.ws) :
    (ServerConnection.step st e).1.socketOpenTimeout = false ∧
      (ServerConnection.step st e).1.currentConnection ≠ some Transport.ws ∧
      countFallbackStarts (ServerConnection.step st e).2 = 0 := by
  revert ht hc; revert st e; decide

lemma fallback_inv_run (evs : List SCEv) (st : SCState) (ht : st.socketOpenTimeout = false)
    (hc : st.currentConnection ≠ some Transport.ws) :
    (ServerConnection.runEvents st evs).1.socketOpenTimeout = false ∧
      (ServerConnection.runEvents st evs).1.currentConnection ≠ some Transport.ws ∧
      countFallbackStarts (ServerConnection.runEvents st evs).2 = 0 := by
  induction evs generalizing st with
  | nil => exact ⟨ht, hc, rfl⟩
  | cons e es ih =>
    obtain ⟨h1, h2, h3⟩ := fallback_inv_step st e ht hc
    obtain ⟨g1, g2, g3⟩ := ih (ServerConnection.step st e).1 h1 h2
    rw [runEvents_cons]
    exact ⟨g1, g2, by rw [countFallbackStarts_append, h3, g3]⟩

/-- C2: after `ResilientChannel.start`, if the primary emits neither a message
nor a disconnect before the 5000ms open-timeout fires, the firing switches the
authoritative transport to the fallback exactly once (one fallback start in the
whole session trace), and in every subsequent reachable state the current
connection is never the primary again. -/
theorem c2_failover_once_and_final (evs₁ evs₂ : List SCEv)
    (hq : ∀ e ∈ evs₁, quietEv e = true) :
    countFallbackStarts (ServerConnection.runEvents ServerConnection.startSocket.1 evs₁).2 = 0 ∧
    (ServerConnection.step (ServerConnection.runEvents ServerConnection.startSocket.1 evs₁).1
        SCEv.timerFire).1.currentConnection = some Transport.http ∧
    countFallbackStarts (ServerConnection.step
        (ServerConnection.runEvents ServerConnection.startSocket.1 evs₁).1 SCEv.timerFire).2 = 1 ∧
    countFallbackStarts (ServerConnection.runEvents (ServerConnection.step
        (ServerConnection.runEvents ServerConnection.startSocket.1 evs₁).1 SCEv.timerFire).1
        evs₂).2 = 0 ∧
    (ServerConnection.runEvents (ServerConnection.step
        (ServerConnection.runEvents ServerConnection.startSocket.1 evs₁).1 SCEv.timerFire).1
        evs₂).1.currentConnection ≠ some Transport.ws := by
  have hstart : ServerConnection.startSocket.1 = (⟨some Transport.ws, true⟩ : SCState) := rfl
  rw [hstart]
  obtain ⟨h1, h2⟩ := runEvents_quiet evs₁ hq
  rw [h1]
  have hfire : ServerConnection.step (⟨some Transport.ws, true⟩ : SCState) SCEv.timerFire =
      ((⟨some Transport.http, false⟩ : SCState),
        [SCAct.wsCloseAct, SCAct.cancelOpenTimeout, SCAct.httpStartAct]) := rfl
  rw [hfire]
  obtain ⟨g1, g2, g3⟩ := fallback_inv_run evs₂ ⟨some Transport.http, false⟩ rfl (by decide)
  exact ⟨h2, rfl, rfl, g3, g2⟩

/-- C2 witness: a concrete quiet prelude followed by the timeout firing and
further session events. -/
theorem c2_witness :
    (∀ e ∈ [SCEv.fromHttp SockEv.message, SCEv.fromWs SockEv.other], quietEv e = true) ∧
    (countFallbackStarts (ServerConnection.runEvents ServerConnection.startSocket.1
        [SCEv.fromHttp SockEv.message, SCEv.fromWs SockEv.other]).2 = 0 ∧
      (ServerConnection.step (ServerConnection.runEvents ServerConnection.startSocket.1
          [SCEv.fromHttp SockEv.message, SCEv.fromWs SockEv.other]).1
          SCEv.timerFire).1.currentConnection = some Transport.http ∧
      countFallbackStarts (ServerConnection.step (ServerConnection.runEvents
          ServerConnection.startSocket.1
          [SCEv.fromHttp SockEv.message, SCEv.fromWs SockEv.other]).1 SCEv.timerFire).2 = 1 ∧
      countFallbackStarts (ServerConnection.runEvents (ServerConnection.step
          (ServerConnection.runEvents ServerConnection.startSocket.1
          [SCEv.fromHttp SockEv.message, SCEv.fromWs SockEv.other]).1 SCEv.timerFire).1
          [SCEv.fromWs SockEv.message, SCEv.closeChannel]).2 = 0 ∧
      (ServerConnection.runEvents (ServerConnection.step (ServerConnection.runEvents
          ServerConnection.startSocket.1
          [SCEv.fromHttp SockEv.message, SCEv.fromWs SockEv.other]).1 SCEv.timerFire).1
          [SCEv.fromWs SockEv.message, SCEv.closeChannel]).1.currentConnection ≠
        some Transport.ws) :=
  ⟨by decide, c2_failover_once_and_final
    [SCEv.fromHttp SockEv.message, SCEv.fromWs SockEv.other]
    [SCEv.fromWs SockEv.message, SCEv.closeChannel] (by decide)⟩

/-- C4: in every state, an event emitted by a wrapped transport is forwarded to
the channel's own listeners only when that transport is the current connection
(before and after the step); every event of a non-current transport is
swallowed. -/
theorem c4_forward_only_current : ∀ (st : SCState) (ev : SCEv) (t : Transport) (e : SockEv),
    SCAct.forward t e ∈ (ServerConnection.step st ev).2 →
    st.currentConnection = some t ∧
      (ServerConnection.step st ev).1.currentConnection = some t := by
  decide

/-- C4 witness: a socket event in a socket-current state is forwarded, and the
theorem applies to it. -/
theorem c4_witness :
    SCAct.forward Transport.ws SockEv.other ∈
      (ServerConnection.step ⟨some Transport.ws, false⟩ (SCEv.fromWs SockEv.other)).2 ∧
    (⟨some Transport.ws, false⟩ : SCState).currentConnection = some Transport.ws ∧
      (ServerConnection.step ⟨some Transport.ws, false⟩
        (SCEv.fromWs SockEv.other)).1.currentConnection = some Transport.ws :=
  ⟨by decide, c4_forward_only_current ⟨some Transport.ws, false⟩ (SCEv.fromWs SockEv.other)
    Transport.ws SockEv.other (by decide)⟩

/-! ## `BaseConnection` claims -/

/-- C6: `setCloseTimeout()` returns false and arms nothing when not
reconnectable or not open; and from an open, reconnectable state with no
recorded timeout, the first call arms exactly one timer and a second call is a
no-op that leaves exactly that one timer pending. -/
theorem c6_setCloseTimeout_guard_and_idempotent (st : BCState) :
    ((st.reconnectable = false ∨ st.openFlag = false) →
      BaseConnection.setCloseTimeout st = (st, false)) ∧
    (st.reconnectable = true → st.openFlag = true → st.reconnectTimeoutId = 0 →
      st.pendingTimers = [] →
      (BaseConnection.setCloseTimeout st).2 = true ∧
      (BaseConnection.setCloseTimeout st).1.pendingTimers = [st.nextTimerId + 1] ∧
      BaseConnection.setCloseTimeout (BaseConnection.setCloseTimeout st).1 =
        ((BaseConnection.setCloseTimeout st).1, true)) := by
  obtain ⟨o, r, tid, pend, nxt⟩ := st
  constructor
  · rintro (h | h) <;> simp_all [BaseConnection.setCloseTimeout]
  · rintro rfl rfl rfl rfl
    refine ⟨rfl, rfl, ?_⟩
    simp [BaseConnection.setCloseTimeout]

/-- C6 witness: the theorem applied at a concrete open, reconnectable state. -/
theorem c6_witness :
    ((⟨true, true, 0, [], 0⟩ : BCState).reconnectable = true ∧
      (⟨true, true, 0, [], 0⟩ : BCState).openFlag = true) ∧
    ((BaseConnection.setCloseTimeout ⟨true, true, 0, [], 0⟩).2 = true ∧
      (BaseConnection.setCloseTimeout ⟨true, true, 0, [], 0⟩).1.pendingTimers = [0 + 1] ∧
      BaseConnection.setCloseTimeout (BaseConnection.setCloseTimeout ⟨true, true, 0, [], 0⟩).1 =
        ((BaseConnection.setCloseTimeout ⟨true, true, 0, [], 0⟩).1, true)) :=
  ⟨by decide,
    (c6_setCloseTimeout_guard_and_idempotent ⟨true, true, 0, [], 0⟩).2 rfl rfl rfl rfl⟩

/-- C7 counterexample: with the close-timeout armed, `reconnectable = false` and
the connection open, the firing callback still invokes `close()` — it is not a
no-op, although the connection is not reconnectable at the moment it fires. -/
theorem c7_counterexample :
    reconnectRevokedState.reconnectTimeoutId ≠ 0 ∧
    ¬(reconnectRevokedState.reconnectable = true ∧ reconnectRevokedState.openFlag = true) ∧
    BCAct.closeCall ∈ (BaseConnection.fireCloseTimeout reconnectRevokedState).2 := by
  decide

/-- C7 amended: when an armed close-timeout fires, it invokes `close()` exactly
when the connection is currently open — `reconnectable` is checked at arming
time only, not at firing time. -/
theorem c7_amended_fire_iff_open (st : BCState) (_harmed : st.reconnectTimeoutId ≠ 0) :
    BCAct.closeCall ∈ (BaseConnection.fireCloseTimeout st).2 ↔ st.openFlag = true := by
  cases h : st.openFlag <;> simp [BaseConnection.fireCloseTimeout, h]

/-- C7 witness: the amended theorem applied at a concrete armed state. -/
theorem c7_witness :
    (⟨false, true, 3, [3], 3⟩ : BCState).reconnectTimeoutId ≠ 0 ∧
    (BCAct.closeCall ∈ (BaseConnection.fireCloseTimeout ⟨false, true, 3, [3], 3⟩).2 ↔
      (⟨false, true, 3, [3], 3⟩ : BCState).openFlag = true) :=
  ⟨by decide, c7_amended_fire_iff_open ⟨false, true, 3, [3], 3⟩ (by decide)⟩

/-! ## `HttpRequestLongPoll` hand-off claim -/

/-- C8: on any readystatechange round of a request that retains a predecessor,
as soon as this request is at the header-received state (readyState 2), or
whenever the predecessor is still before header-received, the predecessor is
aborted and its reference released (so at most one predecessor — here none — is
retained afterwards). -/
theorem c8_previous_request_handoff (r : LongPollReq)
    (hprev : r.previousRequest.isSome = true)
    (hcond : r.readyState = 2 ∨ prevBeforeHeaders r.previousRequest = true) :
    (HttpRequestLongPoll.onReadyStateChange r).1.previousRequest = none ∧
    PollAct.abortPrevious ∈ (HttpRequestLongPoll.onReadyStateChange r).2 := by
  have hneed : HttpRequestLongPoll.needsClearPreviousRequest r = true := by
    rcases hcond with h | h <;>
      simp [HttpRequestLongPoll.needsClearPreviousRequest, hprev, h]
  obtain ⟨p, hp⟩ := Option.isSome_iff_exists.mp hprev
  simp [HttpRequestLongPoll.onReadyStateChange, hneed,
    HttpRequestLongPoll.clearPreviousRequest, hp]

/-- C8 witness: a request at the header-received state with a live predecessor. -/
theorem c8_witness :
    (⟨2, 0, [], some ⟨3⟩⟩ : LongPollReq).previousRequest.isSome = true ∧
    ((HttpRequestLongPoll.onReadyStateChange ⟨2, 0, [], some ⟨3⟩⟩).1.previousRequest = none ∧
      PollAct.abortPrevious ∈ (HttpRequestLongPoll.onReadyStateChange ⟨2, 0, [], some ⟨3⟩⟩).2) :=
  ⟨by decide, c8_previous_request_handoff ⟨2, 0, [], some ⟨3⟩⟩ (by decide)
    (Or.inl (by decide))⟩

/-! ## `HttpRequest.send` before `start` (C3, C9) -/

/-- C9: every `send` made before `start` has been called is silently dropped:
starting from the freshly constructed transport (disconnected), any sequence of
`send` calls leaves the state unchanged — nothing queued — and produces no
output at all (no POST, no error event). -/
theorem c9_send_before_start_dropped (baseUrl : String) (ds : List SendData) :
    runHttpApi (HttpRequest.initState baseUrl) (ds.map HttpApiCall.send) =
      (HttpRequest.initState baseUrl, []) := by
  induction ds with
  | nil => rfl
  | cons d ds ih =>
    have hsend : HttpRequest.send d (HttpRequest.initState baseUrl) =
        (HttpRequest.initState baseUrl, []) := rfl
    simp [runHttpApi, hsend, ih]

lemma queueInv_send (d : SendData) (st : HttpRequestState) (h : QueueInv st) :
    QueueInv (HttpRequest.send d st).1 := by
  cases hd : st.disconnected with
  | true => simpa [HttpRequest.send, hd] using h
  | false =>
    have htr : truthyOptStr st.idField = true := h.2 hd
    have hstep : (HttpRequest.send d st).1 = st := by
      by_cases ht : d.type = "" <;> simp [HttpRequest.send, hd, htr, ht]
    rw [hstep]; exact h

lemma queueInv_start (id token : String) (hid : id ≠ "") (st : HttpRequestState)
    (h : QueueInv st) : QueueInv (HttpRequest.start id token st).1 := by
  by_cases hb : (st.httpRequestActive || !st.disconnected) = true
  · simpa [HttpRequest.start, hb] using h
  · refine ⟨?_, ?_⟩ <;> simp [HttpRequest.start, hb, h.1, truthyOptStr, hid]

lemma queueInv_close (st : HttpRequestState) (h : QueueInv st) :
    QueueInv (HttpRequest.close st).1 := by
  cases hd : st.disconnected with
  | true => simpa [HttpRequest.close, hd] using h
  | false => exact ⟨by simpa [HttpRequest.close, hd] using h.1, by simp [HttpRequest.close, hd]⟩

lemma runHttpApi_queueInv (ops : List HttpApiCall) (st : HttpRequestState)
    (hops : ∀ c ∈ ops, nonEmptyStartIds c = true) (h : QueueInv st) :
    QueueInv (runHttpApi st ops).1 := by
  induction ops generalizing st with
  | nil => exact h
  | cons c cs ih =>
    have hc := hops c (List.mem_cons_self c cs)
    have hrest : ∀ x ∈ cs, nonEmptyStartIds x = true :=
      fun x hx => hops x (List.mem_cons_of_mem c hx)
    cases c with
    | send d => exact ih _ hrest (queueInv_send d st h)
    | start id token =>
      have hid : id ≠ "" := by simpa [nonEmptyStartIds] using hc
      exact ih _ hrest (queueInv_start id token hid st h)
    | close => exact ih _ hrest (queueInv_close st h)

/-- C3 counterexample: a `send` before any session id is assigned is not
appended to the outbound message queue — the queue stays empty (the call is
silently dropped with no output), refuting the claimed queueing. -/
theorem c3_counterexample :
    (HttpRequest.send ⟨"OFFER", 0⟩ (HttpRequest.initState "u")).1.messagesQueue ≠
      [⟨"OFFER", 0⟩] ∧
    HttpRequest.send ⟨"OFFER", 0⟩ (HttpRequest.initState "u") =
      (HttpRequest.initState "u", []) := by
  constructor
  · intro h
    have : ([] : List SendData) = [⟨"OFFER", 0⟩] := h
    simp at this
  · rfl

/-- C3 amended: a `send` before a session id is assigned is silently dropped
(the transport starts disconnected), so in any session whose `start` calls carry
a nonempty id the outbound queue is empty at every point — in particular nothing
is retained in it, and nothing is ever flushed from it, after the id is known. -/
theorem c3_amended_queue_always_empty (baseUrl : String) (ops : List HttpApiCall)
    (hops : ∀ c ∈ ops, nonEmptyStartIds c = true) :
    (runHttpApi (HttpRequest.initState baseUrl) ops).1.messagesQueue = [] :=
  (runHttpApi_queueInv ops (HttpRequest.initState baseUrl) hops
    ⟨rfl, fun h => by simp [HttpRequest.initState] at h⟩).1

/-- C3 witness: sends before and after a concrete `start` leave the queue empty. -/
theorem c3_witness :
    (∀ c ∈ [HttpApiCall.send ⟨"CANDIDATE", 1⟩, HttpApiCall.start "abc" "tok",
        HttpApiCall.send ⟨"OFFER", 2⟩], nonEmptyStartIds c = true) ∧
    (runHttpApi (HttpRequest.initState "http://h:9000/p/key")
      [HttpApiCall.send ⟨"CANDIDATE", 1⟩, HttpApiCall.start "abc" "tok",
        HttpApiCall.send ⟨"OFFER", 2⟩]).1.messagesQueue = [] :=
  ⟨by decide, c3_amended_queue_always_empty "http://h:9000/p/key" _ (by decide)⟩

/-! ## Stream-handler characterization lemmas -/

lemma handleStream_eq {α : Type} (parse : List Char → Option α) (body : List Char)
    (st : PollBufState) :
    HttpRequest.handleStream parse body st =
      ((handleTail parse (splitOnNl body)
          ⟨st.index, (drainBuffer parse (splitOnNl body) st.buffer).1⟩).1,
        (drainBuffer parse (splitOnNl body) st.buffer).2 ++
          (handleTail parse (splitOnNl body)
            ⟨st.index, (drainBuffer parse (splitOnNl body) st.buffer).1⟩).2) := rfl

lemma handleTail_oob {α : Type} (parse : List Char → Option α) (ms : List (List Char))
    (st : PollBufState) (h : ms[st.index]? = none) :
    handleTail parse ms st = (st, []) := by
  unfold handleTail
  rw [h]

lemma handleTail_empty_line {α : Type} (parse : List Char → Option α)
    (ms : List (List Char)) (st : PollBufState) (h : ms[st.index]? = some []) :
    handleTail parse ms st = (st, []) := by
  unfold handleTail
  rw [h]

lemma handleTail_push {α : Type} (parse : List Char → Option α) (ms : List (List Char))
    (st : PollBufState) (l : List Char) (h : ms[st.index]? = some l) (hl : l ≠ [])
    (hlen : st.index + 1 = ms.length) :
    handleTail parse ms st = (⟨st.index + 1, st.buffer ++ [st.index]⟩, []) := by
  obtain ⟨c, cs, rfl⟩ : ∃ c cs, l = c :: cs := by
    cases l with
    | nil => exact absurd rfl hl
    | cons c cs => exact ⟨c, cs, rfl⟩
  unfold handleTail
  rw [h]
  simp [hlen]

lemma handleTail_emit {α : Type} (parse : List Char → Option α) (ms : List (List Char))
    (st : PollBufState) (l : List Char) (v : α) (h : ms[st.index]? = some l) (hl : l ≠ [])
    (hlen : st.index + 1 ≠ ms.length) (hv : parse l = some v) :
    handleTail parse ms st = (⟨st.index + 1, st.buffer⟩, [v]) := by
  obtain ⟨c, cs, rfl⟩ : ∃ c cs, l = c :: cs := by
    cases l with
    | nil => exact absurd rfl hl
    | cons c cs => exact ⟨c, cs, rfl⟩
  unfold handleTail
  rw [h]
  simp [hlen, hv]

lemma handleTail_parse_fail {α : Type} (parse : List Char → Option α)
    (ms : List (List Char)) (st : PollBufState) (l : List Char) (h : ms[st.index]? = some l)
    (hl : l ≠ []) (hlen : st.index + 1 ≠ ms.length) (hv : parse l = none) :
    handleTail parse ms st = (⟨st.index + 1, st.buffer⟩, []) := by
  obtain ⟨c, cs, rfl⟩ : ∃ c cs, l = c :: cs := by
    cases l with
    | nil => exact absurd rfl hl
    | cons c cs => exact ⟨c, cs, rfl⟩
  unfold handleTail
  rw [h]
  simp [hlen, hv]

lemma handleTail_buffer_or_push {α : Type} (parse : List Char → Option α)
    (ms : List (List Char)) (st : PollBufState) :
    (handleTail parse ms st).1.buffer = st.buffer ∨
      (handleTail parse ms st).1.buffer = st.buffer ++ [st.index] := by
  cases h : ms[st.index]? with
  | none => rw [handleTail_oob parse ms st h]; exact Or.inl rfl
  | some l =>
    cases l with
    | nil => rw [handleTail_empty_line parse ms st h]; exact Or.inl rfl
    | cons c cs =>
      by_cases hlen : st.index + 1 = ms.length
      · rw [handleTail_push parse ms st (c :: cs) h (by simp) hlen]
        exact Or.inr rfl
      · cases hv : parse (c :: cs) with
        | none =>
          rw [handleTail_parse_fail parse ms st (c :: cs) h (by simp) hlen hv]
          exact Or.inl rfl
        | some v =>
          rw [handleTail_emit parse ms st (c :: cs) v h (by simp) hlen hv]
          exact Or.inl rfl

lemma handleTail_index_bounds {α : Type} (parse : List Char → Option α)
    (ms : List (List Char)) (st : PollBufState) :
    st.index ≤ (handleTail parse ms st).1.index ∧
      (handleTail parse ms st).1.index ≤ st.index + 1 := by
  cases h : ms[st.index]? with
  | none =>
    rw [handleTail_oob parse ms st h]
    exact ⟨Nat.le_refl _, Nat.le_succ _⟩
  | some l =>
    cases l with
    | nil =>
      rw [handleTail_empty_line parse ms st h]
      exact ⟨Nat.le_refl _, Nat.le_succ _⟩
    | cons c cs =>
      by_cases hlen : st.index + 1 = ms.length
      · rw [handleTail_push parse ms st (c :: cs) h (by simp) hlen]
        exact ⟨Nat.le_succ _, Nat.le_refl _⟩
      · cases hv : parse (c :: cs) with
        | none =>
          rw [handleTail_parse_fail parse ms st (c :: cs) h (by simp) hlen hv]
          exact ⟨Nat.le_succ _, Nat.le_refl _⟩
        | some v =>
          rw [handleTail_emit parse ms st (c :: cs) v h (by simp) hlen hv]
          exact ⟨Nat.le_succ _, Nat.le_refl _⟩

lemma drainBuffer_nil {α : Type} (parse : List Char → Option α) (ms : List (List Char)) :
    drainBuffer parse ms [] = ([], []) := rfl

lemma drainBuffer_fail {α : Type} (parse : List Char → Option α) (ms : List (List Char))
    (i : Nat) (rest : List Nat) (h : ms[i]?.bind parse = none) :
    drainBuffer parse ms (i :: rest) = (i :: rest, []) := by
  unfold drainBuffer
  rw [h]

lemma drainBuffer_ok {α : Type} (parse : List Char → Option α) (ms : List (List Char))
    (i : Nat) (rest : List Nat) (v : α) (h : ms[i]?.bind parse = some v) :
    drainBuffer parse ms (i :: rest) =
      ((drainBuffer parse ms rest).1, v :: (drainBuffer parse ms rest).2) := by
  cases rest <;> simp [drainBuffer, h]

/-! ## Trailing-newline facts about `splitOnNl` -/

lemma splitOnNl_ne_nil (s : List Char) : splitOnNl s ≠ [] := by
  induction s with
  | nil => simp [splitOnNl]
  | cons c cs ih =>
    unfold splitOnNl
    by_cases hc : c = '\n'
    · simp [hc]
    · simp only [hc, if_false]
      cases h : splitOnNl cs with
      | nil => simp
      | cons l ls => simp

lemma splitOnNl_length_pos (s : List Char) : 0 < (splitOnNl s).length :=
  List.length_pos.mpr (splitOnNl_ne_nil s)

lemma endsNl_cons (c : Char) (cs : List Char) (h : cs ≠ []) :
    endsNl (c :: cs) = endsNl cs := by
  cases cs with
  | nil => exact absurd rfl h
  | cons d ds => simp [endsNl, List.getLast?_cons_cons]

lemma append_singleton_eq_singleton {β : Type} (T : List β) (p x : β)
    (h : T ++ [p] = [x]) : T = [] ∧ p = x := by
  cases T with
  | nil => simpa using h
  | cons t ts => simp at h

/-- The last fragment of a split body: `splitOnNl s` always ends in a fragment
`p`, which is empty exactly when `s` ends in a trailing newline (and nonempty
when a nonempty `s` does not). -/
lemma splitOnNl_last_spec (s : List Char) :
    ∃ T p, splitOnNl s = T ++ [p] ∧
      (endsNl s = true → p = [] ∧ T ≠ []) ∧
      (endsNl s = false → s ≠ [] → p ≠ []) := by
  induction s with
  | nil => exact ⟨[], [], rfl, fun h => by simp [endsNl] at h, fun _ h => absurd rfl h⟩
  | cons c cs ih =>
    obtain ⟨T, p, h1, h2, h3⟩ := ih
    by_cases hc : c = '\n'
    · refine ⟨[] :: T, p, ?_, ?_, ?_⟩
      · simp [splitOnNl, hc, h1]
      · intro hend
        cases hcs : cs with
        | nil =>
          subst hcs
          have : T ++ [p] = [[]] := by simpa [splitOnNl] using h1.symm
          obtain ⟨hT, hp⟩ := append_singleton_eq_singleton T p [] this
          exact ⟨hp, by simp⟩
        | cons d ds =>
          subst hcs
          have : endsNl (d :: ds) = true := by
            rw [← endsNl_cons c (d :: ds) (by simp)]
            exact hend
          exact ⟨(h2 this).1, by simp⟩
      · intro hend hne
        cases hcs : cs with
        | nil =>
          subst hcs hc
          simp [endsNl] at hend
        | cons d ds =>
          subst hcs
          have : endsNl (d :: ds) = false := by
            rw [← endsNl_cons c (d :: ds) (by simp)]
            exact hend
          exact h3 this (by simp)
    · cases hT : T with
      | nil =>
        subst hT
        refine ⟨[], c :: p, ?_, ?_, ?_⟩
        · simp only [splitOnNl, hc, if_false, h1]
          simp
        · intro hend
          cases hcs : cs with
          | nil =>
            subst hcs
            simp [endsNl, List.getLast?, hc] at hend
          | cons d ds =>
            subst hcs
            have : endsNl (d :: ds) = true := by
              rw [← endsNl_cons c (d :: ds) (by simp)]
              exact hend
            exact absurd (h2 this).2 (by simp)
        · intro _ _
          simp
      | cons t Ts =>
        subst hT
        refine ⟨(c :: t) :: Ts, p, ?_, ?_, ?_⟩
        · simp only [splitOnNl, hc, if_false, h1]
          simp
        · intro hend
          cases hcs : cs with
          | nil =>
            subst hcs
            have : (t :: Ts) ++ [p] = [[]] := by simpa [splitOnNl] using h1.symm
            obtain ⟨hT2, _⟩ := append_singleton_eq_singleton _ p [] this
            simp at hT2
          | cons d ds =>
            subst hcs
            have : endsNl (d :: ds) = true := by
              rw [← endsNl_cons c (d :: ds) (by simp)]
              exact hend
            exact ⟨(h2 this).1, by simp⟩
        · intro hend hne
          cases hcs : cs with
          | nil =>
            subst hcs
            have : (t :: Ts) ++ [p] = [[]] := by simpa [splitOnNl] using h1.symm
            obtain ⟨hT2, _⟩ := append_singleton_eq_singleton _ p [] this
            simp at hT2
          | cons d ds =>
            subst hcs
            have : endsNl (d :: ds) = false := by
              rw [← endsNl_cons c (d :: ds) (by simp)]
              exact hend
            exact h3 this (by simp)

/-! ## C5 and C10: per-invocation properties of the stream handler -/

/-- C5: in a handler invocation whose tail step reads the last line of a body
with no trailing newline, that line's offset is pushed to the buffer and the
tail emits nothing (only previously buffered messages are emitted); and when
the body ends in a trailing newline, the tail step never defers anything — in
particular the empty final element is never pushed to the buffer. -/
theorem c5_last_line_deferral {α : Type} (parse : List Char → Option α) (body : List Char)
    (st : PollBufState) :
    (endsNl body = false → body ≠ [] →
      st.index + 1 = (HttpRequestLongPoll.getMessages body).length →
      (HttpRequest.handleStream parse body st).1.buffer =
        (drainBuffer parse (HttpRequestLongPoll.getMessages body) st.buffer).1 ++ [st.index] ∧
      (HttpRequest.handleStream parse body st).2 =
        (drainBuffer parse (HttpRequestLongPoll.getMessages body) st.buffer).2) ∧
    (endsNl body = true →
      (HttpRequest.handleStream parse body st).1.buffer =
        (drainBuffer parse (HttpRequestLongPoll.getMessages body) st.buffer).1) := by
  obtain ⟨T, p, hsp, hT, hF⟩ := splitOnNl_last_spec body
  have hms : HttpRequestLongPoll.getMessages body = splitOnNl body := rfl
  have hlenms : (splitOnNl body).length = T.length + 1 := by simp [hsp]
  have hlast : (splitOnNl body)[T.length]? = some p := by
    rw [hsp, List.getElem?_append_right (Nat.le_refl T.length)]
    simp
  constructor
  · intro hend hne hlen
    have hidx : st.index = T.length := by
      rw [hms, hlenms] at hlen
      omega
    have hp : p ≠ [] := hF hend hne
    rw [hms] at hlen ⊢
    rw [handleStream_eq]
    rw [handleTail_push parse (splitOnNl body)
      ⟨st.index, (drainBuffer parse (splitOnNl body) st.buffer).1⟩ p
      (by show (splitOnNl body)[st.index]? = some p; rw [hidx]; exact hlast) hp hlen]
    simp
  · intro hend
    obtain ⟨hp, -⟩ := hT hend
    subst hp
    rw [hms, handleStream_eq]
    by_cases hlen : st.index + 1 = (splitOnNl body).length
    · have hidx : st.index = T.length := by rw [hlenms] at hlen; omega
      rw [handleTail_empty_line parse (splitOnNl body)
        ⟨st.index, (drainBuffer parse (splitOnNl body) st.buffer).1⟩
        (by show (splitOnNl body)[st.index]? = some []; rw [hidx]; exact hlast)]
    · cases h : (splitOnNl body)[st.index]? with
      | none =>
        rw [handleTail_oob parse (splitOnNl body)
          ⟨st.index, (drainBuffer parse (splitOnNl body) st.buffer).1⟩ h]
      | some l =>
        cases l with
        | nil =>
          rw [handleTail_empty_line parse (splitOnNl body)
            ⟨st.index, (drainBuffer parse (splitOnNl body) st.buffer).1⟩ h]
        | cons c cs =>
          cases hv : parse (c :: cs) with
          | none =>
            rw [handleTail_parse_fail parse (splitOnNl body)
              ⟨st.index, (drainBuffer parse (splitOnNl body) st.buffer).1⟩ (c :: cs) h
              (by simp) hlen hv]
          | some v =>
            rw [handleTail_emit parse (splitOnNl body)
              ⟨st.index, (drainBuffer parse (splitOnNl body) st.buffer).1⟩ (c :: cs) v h
              (by simp) hlen hv]

/-- C5 witness: the body `"a;\nm;"` (no trailing newline) read at its last line
defers offset 1 instead of emitting. -/
theorem c5_witness :
    (endsNl ['a', ';', '\n', 'm', ';'] = false ∧
      (1 : Nat) + 1 = (HttpRequestLongPoll.getMessages ['a', ';', '\n', 'm', ';']).length) ∧
    ((HttpRequest.handleStream testParse ['a', ';', '\n', 'm', ';']
        ⟨1, []⟩).1.buffer =
      (drainBuffer testParse (HttpRequestLongPoll.getMessages ['a', ';', '\n', 'm', ';'])
        []).1 ++ [1] ∧
      (HttpRequest.handleStream testParse ['a', ';', '\n', 'm', ';'] ⟨1, []⟩).2 =
        (drainBuffer testParse (HttpRequestLongPoll.getMessages ['a', ';', '\n', 'm', ';'])
          []).2) :=
  ⟨by decide, (c5_last_line_deferral testParse ['a', ';', '\n', 'm', ';'] ⟨1, []⟩).1
    (by decide) (by decide) (by decide)⟩

/-- C10 counterexample: with buffered offset 1 whose line `"xx"` fails to parse,
the handler still processes the new tail line `"m;"` and emits it — messages are
emitted in the same invocation, refuting "no further messages (buffered or new)
are emitted". -/
theorem c10_counterexample :
    (HttpRequestLongPoll.getMessages
        ['a', ';', '\n', 'x', 'x', '\n', 'm', ';', '\n'])[1]?.bind testParse = none ∧
    (HttpRequest.handleStream testParse ['a', ';', '\n', 'x', 'x', '\n', 'm', ';', '\n']
        ⟨2, [1]⟩).2 = [['m', ';']] ∧
    ([['m', ';']] : List (List Char)) ≠ [] := by decide

/-- C10 amended: one handler invocation advances the read index by at most one
(and never backwards); and when the front buffered offset fails to parse, the
offset is restored to the front of the FIFO, no buffered message is emitted, and
the invocation degenerates to exactly the tail step (which may still process and
emit the one new line). -/
theorem c10_amended_one_line_and_restore {α : Type} (parse : List Char → Option α)
    (body : List Char) (st : PollBufState) :
    (st.index ≤ (HttpRequest.handleStream parse body st).1.index ∧
      (HttpRequest.handleStream parse body st).1.index ≤ st.index + 1) ∧
    (∀ i rest, st.buffer = i :: rest →
      (HttpRequestLongPoll.getMessages body)[i]?.bind parse = none →
      HttpRequest.handleStream parse body st =
        handleTail parse (HttpRequestLongPoll.getMessages body) ⟨st.index, i :: rest⟩) := by
  constructor
  · rw [handleStream_eq]
    exact handleTail_index_bounds parse (splitOnNl body)
      ⟨st.index, (drainBuffer parse (splitOnNl body) st.buffer).1⟩
  · intro i rest hbuf hfail
    have hms : HttpRequestLongPoll.getMessages body = splitOnNl body := rfl
    rw [hms] at hfail ⊢
    rw [handleStream_eq, hbuf, drainBuffer_fail parse (splitOnNl body) i rest hfail]
    simp

/-- C10 witness: a concrete invocation with a failing buffered offset reduces to
the pure tail step. -/
theorem c10_witness :
    (HttpRequestLongPoll.getMessages
        ['b', ';', '\n', 'y', 'y', '\n', 'k', ';', '\n'])[1]?.bind testParse = none ∧
    HttpRequest.handleStream testParse ['b', ';', '\n', 'y', 'y', '\n', 'k', ';', '\n']
        ⟨2, [1]⟩ =
      handleTail testParse
        (HttpRequestLongPoll.getMessages ['b', ';', '\n', 'y', 'y', '\n', 'k', ';', '\n'])
        ⟨2, [1]⟩ :=
  ⟨by decide, (c10_amended_one_line_and_restore testParse
    ['b', ';', '\n', 'y', 'y', '\n', 'k', ';', '\n'] ⟨2, [1]⟩).2 1 [] rfl (by decide)⟩

/-- C1 counterexample: the handler's read index starts at 1, so the first line
of the stream is never read.  For the one-line final stream `"m;\n"`, presented
as its own (trivially monotonically growing) snapshot sequence, nothing at all
is emitted, while the parsed messages of the final stream are `["m;"]`. -/
theorem c1_counterexample :
    (runSnapshots testParse HttpRequestLongPoll.initState [joinNl [['m', ';']]]).2 = [] ∧
    List.filterMap testParse [['m', ';']] = [['m', ';']] ∧
    (runSnapshots testParse HttpRequestLongPoll.initState [joinNl [['m', ';']]]).2 ≠
      List.filterMap testParse [['m', ';']] := by
  decide

/-! ## Snapshot decomposition for C1 -/

lemma splitOnNl_no_newline (s : List Char) (h : ('\n' : Char) ∉ s) :
    splitOnNl s = [s] := by
  induction s with
  | nil => rfl
  | cons c cs ih =>
    have hc : c ≠ '\n' := fun hc => h (by simp [hc])
    have hcs : ('\n' : Char) ∉ cs := fun hm => h (by simp [hm])
    unfold splitOnNl
    rw [if_neg hc, ih hcs]

lemma splitOnNl_append_line (l s : List Char) (h : ('\n' : Char) ∉ l) :
    splitOnNl (l ++ '\n' :: s) = l :: splitOnNl s := by
  induction l with
  | nil => simp [splitOnNl]
  | cons c cs ih =>
    have hc : c ≠ '\n' := fun hc => h (by simp [hc])
    have hcs : ('\n' : Char) ∉ cs := fun hm => h (by simp [hm])
    have ih2 := ih hcs
    show splitOnNl (c :: (cs ++ '\n' :: s)) = (c :: cs) :: splitOnNl s
    conv_lhs => unfold splitOnNl
    rw [if_neg hc, ih2]

lemma joinNl_cons (l : List Char) (L : List (List Char)) :
    joinNl (l :: L) = l ++ '\n' :: joinNl L := rfl

lemma splitOnNl_joinNl (L : List (List Char)) (h : ∀ l ∈ L, ('\n' : Char) ∉ l) :
    splitOnNl (joinNl L) = L ++ [[]] := by
  induction L with
  | nil => rfl
  | cons l L ih =>
    rw [joinNl_cons, splitOnNl_append_line l (joinNl L) (h l (by simp)),
      ih (fun x hx => h x (by simp [hx]))]
    rfl

lemma prefix_append_cases {β : Type} (s a b : List β) (h : s <+: a ++ b) :
    s <+: a ∨ ∃ s₂, s = a ++ s₂ ∧ s₂ <+: b := by
  induction a generalizing s with
  | nil => exact Or.inr ⟨s, rfl, h⟩
  | cons x a ih =>
    cases s with
    | nil => exact Or.inl List.nil_prefix
    | cons y s =>
      obtain ⟨t, ht⟩ := h
      injection ht with h1 h2
      subst h1
      rcases ih s ⟨t, h2⟩ with hl | ⟨s₂, hs₂, hpre⟩
      · exact Or.inl (List.cons_prefix_cons.mpr ⟨rfl, hl⟩)
      · exact Or.inr ⟨s₂, by simp [hs₂], hpre⟩

lemma prefix_cons_cases {β : Type} (s : List β) (x : β) (b : List β) (h : s <+: x :: b) :
    s = [] ∨ ∃ s₂, s = x :: s₂ ∧ s₂ <+: b := by
  cases s with
  | nil => exact Or.inl rfl
  | cons y s =>
    obtain ⟨t, ht⟩ := h
    injection ht with h1 h2
    exact Or.inr ⟨s, by rw [h1], ⟨t, h2⟩⟩

/-- Decomposing the split of a snapshot: any prefix `s` of the final stream
splits into the first `j` full lines followed by one final fragment `p`, where
either `p` is a prefix of line `j`, or `s` is the whole stream (`j` is the line
count and `p` is empty). -/
lemma snapshot_split (L : List (List Char)) (s : List Char)
    (hL : ∀ l ∈ L, ('\n' : Char) ∉ l) (hs : s <+: joinNl L) :
    ∃ j p, splitOnNl s = L.take j ++ [p] ∧
      ((j < L.length ∧ p <+: L.getD j []) ∨ (j = L.length ∧ p = [])) := by
  induction L generalizing s with
  | nil =>
    have : s = [] := List.prefix_nil.mp hs
    subst this
    exact ⟨0, [], rfl, Or.inr ⟨rfl, rfl⟩⟩
  | cons l L ih =>
    rw [joinNl_cons] at hs
    rcases prefix_append_cases s l ('\n' :: joinNl L) hs with hpre | ⟨s₂, rfl, hpre⟩
    · refine ⟨0, s, ?_, Or.inl ⟨by simp, by simpa using hpre⟩⟩
      have hnos : ('\n' : Char) ∉ s := fun hm => hL l (by simp) (hpre.subset hm)
      rw [splitOnNl_no_newline s hnos]
      rfl
    · rcases prefix_cons_cases s₂ '\n' (joinNl L) hpre with rfl | ⟨s₃, rfl, hpre₃⟩
      · refine ⟨0, l, ?_, Or.inl ⟨by simp, by simp⟩⟩
        rw [List.append_nil, splitOnNl_no_newline l (hL l (by simp))]
        rfl
      · obtain ⟨j, p, hsp, hjp⟩ := ih s₃ (fun x hx => hL x (by simp [hx])) hpre₃
        refine ⟨j + 1, p, ?_, ?_⟩
        · rw [splitOnNl_append_line l s₃ (hL l (by simp)), hsp]
          rfl
        · rcases hjp with ⟨hj, hp⟩ | ⟨hj, hp⟩
          · exact Or.inl ⟨by simpa using Nat.succ_lt_succ hj, by simpa using hp⟩
          · exact Or.inr ⟨by simp [hj], hp⟩

/-! ## Element lookup and segment lemmas for C1 -/

lemma getElem?_eq_some_getD (L : List (List Char)) (i : Nat) (h : i < L.length) :
    L[i]? = some (L.getD i []) := by
  simp [List.getD, List.getElem?_eq_getElem h]

lemma getD_eq_getElem_nil (L : List (List Char)) (i : Nat) (h : i < L.length) :
    L.getD i [] = L[i] := by
  simp [List.getD, List.getElem?_eq_getElem h]

lemma msLen (L : List (List Char)) (j : Nat) (p : List Char) (hj : j ≤ L.length) :
    (L.take j ++ [p]).length = j + 1 := by
  simp [List.length_take, Nat.min_eq_left hj]

lemma msGet_lt (L : List (List Char)) (j : Nat) (p : List Char) (i : Nat)
    (hj : j ≤ L.length) (hi : i < j) : (L.take j ++ [p])[i]? = some (L.getD i []) := by
  rw [List.getElem?_append_left (by simp [List.length_take]; omega)]
  rw [List.getElem?_take, if_pos hi]
  exact getElem?_eq_some_getD L i (lt_of_lt_of_le hi hj)

lemma msGet_eq (L : List (List Char)) (j : Nat) (p : List Char) (hj : j ≤ L.length) :
    (L.take j ++ [p])[j]? = some p := by
  have hlen : (L.take j).length = j := by simp [List.length_take, Nat.min_eq_left hj]
  rw [List.getElem?_append_right (by omega), hlen]
  simp

lemma msGet_gt (L : List (List Char)) (j : Nat) (p : List Char) (i : Nat)
    (hj : j ≤ L.length) (hi : j < i) : (L.take j ++ [p])[i]? = none := by
  apply List.getElem?_eq_none
  rw [msLen L j p hj]
  omega

lemma seg_refl {α : Type} (parse : List Char → Option α) (L : List (List Char)) (a : Nat) :
    seg parse L a a = [] := by
  unfold seg
  rw [List.drop_take]
  simp

lemma seg_append {α : Type} (parse : List Char → Option α) (L : List (List Char))
    (a b c : Nat) (hab : a ≤ b) (hbc : b ≤ c) (hc : c ≤ L.length) :
    seg parse L a b ++ seg parse L b c = seg parse L a c := by
  unfold seg
  rw [← List.filterMap_append]
  congr 1
  symm
  have h1 : L.take b = (L.take c).take b := by
    rw [List.take_take, Nat.min_eq_left hbc]
  have h2 : L.take c = L.take b ++ (L.take c).drop b := by
    conv_lhs => rw [← List.take_append_drop b (L.take c)]
    rw [← h1]
  have hlb : a ≤ (L.take b).length := by
    simp only [List.length_take]
    exact Nat.le_min.mpr ⟨hab, le_trans hab (le_trans hbc hc)⟩
  calc (L.take c).drop a
      = (L.take b ++ (L.take c).drop b).drop a := by rw [← h2]
    _ = (L.take b).drop a ++ (L.take c).drop b := List.drop_append_of_le_length hlb

lemma take_one_cons {β : Type} (x : β) (l : List β) : (x :: l).take 1 = [x] := rfl

lemma take_two_cons {β : Type} (x y : β) (l : List β) : (x :: y :: l).take 2 = [x, y] := rfl

lemma seg_single {α : Type} (parse : List Char → Option α) (L : List (List Char))
    (a : Nat) (v : α) (ha : a < L.length) (hv : parse (L.getD a []) = some v) :
    seg parse L a (a + 1) = [v] := by
  unfold seg
  rw [getD_eq_getElem_nil L a ha] at hv
  have h1 : a + 1 - a = 1 := by omega
  rw [List.drop_take, h1, List.drop_eq_getElem_cons ha, take_one_cons]
  simp [hv]

lemma seg_double {α : Type} (parse : List Char → Option α) (L : List (List Char))
    (a : Nat) (v v' : α) (ha : a + 1 < L.length) (hv : parse (L.getD a []) = some v)
    (hv' : parse (L.getD (a + 1) []) = some v') :
    seg parse L a (a + 2) = [v, v'] := by
  unfold seg
  have ha0 : a < L.length := by omega
  have hdrop : L.drop (a + 1) = L[a + 1] :: L.drop (a + 2) := List.drop_eq_getElem_cons ha
  rw [getD_eq_getElem_nil L a ha0] at hv
  rw [getD_eq_getElem_nil L (a + 1) ha] at hv'
  have h2 : a + 2 - a = 2 := by omega
  rw [List.drop_take, h2, List.drop_eq_getElem_cons ha0, hdrop, take_two_cons]
  simp [hv, hv']

/-! ## The per-snapshot step of the replay invariant (C1) -/

lemma handleStream_stepA {α : Type} (parse : List Char → Option α) (L : List (List Char))
    (hL : GoodLines parse L) (j : Nat) (p : List Char)
    (hjp : (j < L.length ∧ p <+: L.getD j []) ∨ (j = L.length ∧ p = []))
    (m : Nat) (hm1 : 1 ≤ m) (hmn : m ≤ L.length) :
    ∃ m', m ≤ m' ∧
      StreamInv L.length (handleTail parse (L.take j ++ [p]) ⟨m, []⟩).1 m' ∧
      (handleTail parse (L.take j ++ [p]) ⟨m, []⟩).2 = seg parse L m m' ∧
      (j = L.length → m < L.length → m + 1 ≤ m') := by
  have hj : j ≤ L.length := by rcases hjp with ⟨h, -⟩ | ⟨h, -⟩ <;> omega
  rcases Nat.lt_trichotomy m j with hmj | hmj | hmj
  · -- the snapshot contains line m in full, followed by more: emit it
    have hmlt : m < L.length := lt_of_lt_of_le hmj hj
    obtain ⟨hne, hsome⟩ := hL.2.1 m hmlt hm1
    obtain ⟨v, hv⟩ := Option.isSome_iff_exists.mp hsome
    have hlen_ne : (⟨m, ([] : List Nat)⟩ : PollBufState).index + 1 ≠
        (L.take j ++ [p]).length := by
      show m + 1 ≠ _
      rw [msLen L j p hj]
      omega
    rw [handleTail_emit parse (L.take j ++ [p]) ⟨m, []⟩ (L.getD m []) v
      (msGet_lt L j p m hj hmj) hne hlen_ne hv]
    exact ⟨m + 1, Nat.le_succ m, Or.inl ⟨by omega, by omega, rfl⟩,
      (seg_single parse L m v hmlt hv).symm, fun _ _ => Nat.le_refl (m + 1)⟩
  · -- the cursor sits exactly at the snapshot's final fragment
    rcases hjp with ⟨hjlt, -⟩ | ⟨hjn, rfl⟩
    · by_cases hpe : p = []
      · subst hpe
        rw [handleTail_empty_line parse (L.take j ++ [([] : List Char)]) ⟨m, []⟩
          (by show (L.take j ++ [([] : List Char)])[m]? = _; rw [hmj]; exact msGet_eq L j [] hj)]
        exact ⟨m, Nat.le_refl m, Or.inl ⟨hm1, hmn, rfl⟩, (seg_refl parse L m).symm,
          fun hF _ => by omega⟩
      · have hlen : (⟨m, ([] : List Nat)⟩ : PollBufState).index + 1 =
            (L.take j ++ [p]).length := by
          show m + 1 = _
          rw [msLen L j p hj]
          omega
        rw [handleTail_push parse (L.take j ++ [p]) ⟨m, []⟩ p
          (by show (L.take j ++ [p])[m]? = _; rw [hmj]; exact msGet_eq L j p hj) hpe hlen]
        exact ⟨m, Nat.le_refl m, Or.inr ⟨hm1, by omega, rfl⟩, (seg_refl parse L m).symm,
          fun hF _ => by omega⟩
    · rw [handleTail_empty_line parse (L.take j ++ [([] : List Char)]) ⟨m, []⟩
        (by show (L.take j ++ [([] : List Char)])[m]? = _; rw [hmj]; exact msGet_eq L j [] hj)]
      exact ⟨m, Nat.le_refl m, Or.inl ⟨hm1, hmn, rfl⟩, (seg_refl parse L m).symm,
        fun _ hlt => by omega⟩
  · -- the cursor is past the end of this snapshot: nothing to read
    rw [handleTail_oob parse (L.take j ++ [p]) ⟨m, []⟩ (msGet_gt L j p m hj hmj)]
    exact ⟨m, Nat.le_refl m, Or.inl ⟨hm1, hmn, rfl⟩, (seg_refl parse L m).symm,
      fun hF _ => by omega⟩

lemma handleStream_stepB {α : Type} (parse : List Char → Option α) (L : List (List Char))
    (hL : GoodLines parse L) (j : Nat) (p : List Char)
    (hjp : (j < L.length ∧ p <+: L.getD j []) ∨ (j = L.length ∧ p = []))
    (m : Nat) (hm1 : 1 ≤ m) (hmn : m + 1 ≤ L.length) :
    ∃ m', m ≤ m' ∧
      StreamInv L.length (handleTail parse (L.take j ++ [p])
        ⟨m + 1, (drainBuffer parse (L.take j ++ [p]) [m]).1⟩).1 m' ∧
      (drainBuffer parse (L.take j ++ [p]) [m]).2 ++
        (handleTail parse (L.take j ++ [p])
          ⟨m + 1, (drainBuffer parse (L.take j ++ [p]) [m]).1⟩).2 = seg parse L m m' ∧
      (j = L.length → m + 1 ≤ m') := by
  have hj : j ≤ L.length := by rcases hjp with ⟨h, -⟩ | ⟨h, -⟩ <;> omega
  rcases Nat.lt_trichotomy m j with hmj | hmj | hmj
  · -- the deferred line m is now fully available: the drain emits it
    have hmlt : m < L.length := lt_of_lt_of_le hmj hj
    obtain ⟨hne, hsome⟩ := hL.2.1 m hmlt hm1
    obtain ⟨v, hv⟩ := Option.isSome_iff_exists.mp hsome
    have hdr : drainBuffer parse (L.take j ++ [p]) [m] = ([], [v]) := by
      rw [drainBuffer_ok parse (L.take j ++ [p]) m [] v
        (by rw [msGet_lt L j p m hj hmj]; simpa using hv), drainBuffer_nil]
    rcases Nat.lt_or_ge (m + 1) j with hsub | hsub
    · -- the next line is also fully available: the tail emits it too
      have hm1lt : m + 1 < L.length := lt_of_lt_of_le hsub hj
      obtain ⟨hne2, hsome2⟩ := hL.2.1 (m + 1) hm1lt (by omega)
      obtain ⟨v2, hv2⟩ := Option.isSome_iff_exists.mp hsome2
      have htl : handleTail parse (L.take j ++ [p]) ⟨m + 1, []⟩ =
          (⟨m + 2, []⟩, [v2]) := by
        rw [handleTail_emit parse (L.take j ++ [p]) ⟨m + 1, []⟩ (L.getD (m + 1) []) v2
          (msGet_lt L j p (m + 1) hj hsub) hne2
          (by show m + 1 + 1 ≠ _; rw [msLen L j p hj]; omega) hv2]
      simp only [hdr, htl, List.append_nil]
      exact ⟨m + 2, by omega, Or.inl ⟨by omega, by omega, rfl⟩,
        (seg_double parse L m v v2 hm1lt hv hv2).symm, fun _ => by omega⟩
    · -- the next line is this snapshot's final fragment
      have hm1j : m + 1 = j := by omega
      by_cases hpe : p = []
      · subst hpe
        have htl : handleTail parse (L.take j ++ [([] : List Char)]) ⟨m + 1, []⟩ =
            (⟨m + 1, []⟩, []) :=
          handleTail_empty_line parse _ ⟨m + 1, []⟩
            (by show (L.take j ++ [([] : List Char)])[m + 1]? = _
                rw [hm1j]; exact msGet_eq L j [] hj)
        simp only [hdr, htl, List.append_nil]
        exact ⟨m + 1, Nat.le_succ m, Or.inl ⟨by omega, hmn, rfl⟩,
          (seg_single parse L m v hmlt hv).symm, fun _ => Nat.le_refl (m + 1)⟩
      · have hjlt : j < L.length := by
          rcases hjp with ⟨h, -⟩ | ⟨-, hp0⟩
          · exact h
          · exact absurd hp0 hpe
        have htl : handleTail parse (L.take j ++ [p]) ⟨m + 1, []⟩ =
            (⟨m + 2, [] ++ [m + 1]⟩, []) :=
          handleTail_push parse _ ⟨m + 1, []⟩ p
            (by show (L.take j ++ [p])[m + 1]? = _
                rw [hm1j]; exact msGet_eq L j p hj) hpe
            (by show m + 1 + 1 = _; rw [msLen L j p hj]; omega)
        simp only [hdr, htl, List.append_nil]
        exact ⟨m + 1, Nat.le_succ m, Or.inr ⟨by omega, by omega, rfl⟩,
          (seg_single parse L m v hmlt hv).symm, fun _ => Nat.le_refl (m + 1)⟩
  · -- the deferred line m is this snapshot's final fragment
    rcases hjp with ⟨hjlt, hp⟩ | ⟨hjn, hp0⟩
    · by_cases hpe : p = L.getD j []
      · -- the fragment is the whole line (no trailing newline yet): it parses
        obtain ⟨hne, hsome⟩ := hL.2.1 j hjlt (by omega)
        obtain ⟨v, hv⟩ := Option.isSome_iff_exists.mp hsome
        have hdr : drainBuffer parse (L.take j ++ [p]) [m] = ([], [v]) := by
          rw [drainBuffer_ok parse (L.take j ++ [p]) m [] v
            (by rw [show (L.take j ++ [p])[m]? = some p from by rw [hmj]; exact msGet_eq L j p hj]
                rw [hpe]
                simpa using hv), drainBuffer_nil]
        have htl : handleTail parse (L.take j ++ [p]) ⟨m + 1, []⟩ =
            (⟨m + 1, []⟩, []) :=
          handleTail_oob parse _ ⟨m + 1, []⟩ (msGet_gt L j p (m + 1) hj (by omega))
        simp only [hdr, htl, List.append_nil]
        refine ⟨m + 1, Nat.le_succ m, Or.inl ⟨by omega, hmn, rfl⟩, ?_, fun hF => by omega⟩
        have hvm : parse (L.getD m []) = some v := by rw [hmj]; exact hv
        exact (seg_single parse L m v (by omega) hvm).symm
      · -- a proper prefix of the line: it does not parse, the offset is restored
        have hptake : p = (L.getD j []).take p.length := List.prefix_iff_eq_take.mp hp
        have hplt : p.length < (L.getD j []).length :=
          lt_of_le_of_ne hp.length_le (fun he => hpe (hp.eq_of_length he))
        have hpnone : parse p = none := by
          rw [hptake]
          exact hL.2.2 j hjlt (by omega) p.length hplt
        have hdr : drainBuffer parse (L.take j ++ [p]) [m] = ([m], []) :=
          drainBuffer_fail parse _ m []
            (by rw [show (L.take j ++ [p])[m]? = some p from by rw [hmj]; exact msGet_eq L j p hj]
                simpa using hpnone)
        have htl : handleTail parse (L.take j ++ [p]) ⟨m + 1, [m]⟩ =
            (⟨m + 1, [m]⟩, []) :=
          handleTail_oob parse _ ⟨m + 1, [m]⟩ (msGet_gt L j p (m + 1) hj (by omega))
        simp only [hdr, htl, List.append_nil]
        exact ⟨m, Nat.le_refl m, Or.inr ⟨hm1, hmn, rfl⟩, (seg_refl parse L m).symm,
          fun hF => by omega⟩
    · exact absurd hmn (by omega)
  · -- the snapshot does not even reach the deferred line: everything stays put
    have hdr : drainBuffer parse (L.take j ++ [p]) [m] = ([m], []) :=
      drainBuffer_fail parse _ m [] (by rw [msGet_gt L j p m hj hmj]; rfl)
    have htl : handleTail parse (L.take j ++ [p]) ⟨m + 1, [m]⟩ =
        (⟨m + 1, [m]⟩, []) :=
      handleTail_oob parse _ ⟨m + 1, [m]⟩ (msGet_gt L j p (m + 1) hj (by omega))
    simp only [hdr, htl, List.append_nil]
    exact ⟨m, Nat.le_refl m, Or.inr ⟨hm1, hmn, rfl⟩, (seg_refl parse L m).symm,
      fun hF => by omega⟩

lemma handleStream_step {α : Type} (parse : List Char → Option α) (L : List (List Char))
    (hL : GoodLines parse L) (s : List Char) (hs : s <+: joinNl L)
    (st : PollBufState) (m : Nat) (hInv : StreamInv L.length st m) :
    ∃ m', m ≤ m' ∧ StreamInv L.length (HttpRequest.handleStream parse s st).1 m' ∧
      (HttpRequest.handleStream parse s st).2 = seg parse L m m' ∧
      (s = joinNl L → m < L.length → m + 1 ≤ m') := by
  obtain ⟨j, p, hms, hjp⟩ := snapshot_split L s hL.1 hs
  have hj : j ≤ L.length := by rcases hjp with ⟨h, -⟩ | ⟨h, -⟩ <;> omega
  have hjF : s = joinNl L → j = L.length := by
    intro hF
    have hsp2 : splitOnNl s = L ++ [[]] := by rw [hF]; exact splitOnNl_joinNl L hL.1
    have hlen := congrArg List.length (hms.symm.trans hsp2)
    rw [msLen L j p hj] at hlen
    simp at hlen
    omega
  rcases hInv with ⟨hm1, hmn, rfl⟩ | ⟨hm1, hmn, rfl⟩
  · obtain ⟨m', h1, h2, h3, h4⟩ := handleStream_stepA parse L hL j p hjp m hm1 hmn
    rw [handleStream_eq, hms]
    exact ⟨m', h1, h2, h3, fun hF hlt => h4 (hjF hF) hlt⟩
  · obtain ⟨m', h1, h2, h3, h4⟩ := handleStream_stepB parse L hL j p hjp m hm1 hmn
    rw [handleStream_eq, hms]
    exact ⟨m', h1, h2, h3, fun hF _ => h4 (hjF hF)⟩

lemma runSnapshots_cons {α : Type} (parse : List Char → Option α) (st : PollBufState)
    (s : List Char) (ss : List (List Char)) :
    runSnapshots parse st (s :: ss) =
      ((runSnapshots parse (HttpRequest.handleStream parse s st).1 ss).1,
        (HttpRequest.handleStream parse s st).2 ++
          (runSnapshots parse (HttpRequest.handleStream parse s st).1 ss).2) := rfl

lemma runSnapshots_append {α : Type} (parse : List Char → Option α) (st : PollBufState)
    (a b : List (List Char)) :
    runSnapshots parse st (a ++ b) =
      ((runSnapshots parse (runSnapshots parse st a).1 b).1,
        (runSnapshots parse st a).2 ++
          (runSnapshots parse (runSnapshots parse st a).1 b).2) := by
  induction a generalizing st with
  | nil => simp [runSnapshots]
  | cons s sa ih =>
    rw [List.cons_append, runSnapshots_cons, runSnapshots_cons, ih]
    simp [List.append_assoc]

lemma StreamInv_le (n : Nat) (st : PollBufState) (m : Nat) (h : StreamInv n st m) :
    m ≤ n := by
  rcases h with ⟨-, h, -⟩ | ⟨-, h, -⟩ <;> omega

lemma runSnapshots_inv {α : Type} (parse : List Char → Option α) (L : List (List Char))
    (hL : GoodLines parse L) (ss : List (List Char)) (st : PollBufState) (m : Nat) :
    (∀ s ∈ ss, s <+: joinNl L) → StreamInv L.length st m →
    ∃ m', m ≤ m' ∧ StreamInv L.length (runSnapshots parse st ss).1 m' ∧
      (runSnapshots parse st ss).2 = seg parse L m m' := by
  induction ss generalizing st m with
  | nil =>
    intro _ hInv
    exact ⟨m, Nat.le_refl m, hInv, (seg_refl parse L m).symm⟩
  | cons s ssr ih =>
    intro hss hInv
    obtain ⟨m1, ha1, ha2, ha3, -⟩ :=
      handleStream_step parse L hL s (hss s (by simp)) st m hInv
    obtain ⟨m2, hb1, hb2, hb3⟩ := ih _ m1 (fun x hx => hss x (by simp [hx])) ha2
    refine ⟨m2, le_trans ha1 hb1, ?_, ?_⟩
    · rw [runSnapshots_cons]
      exact hb2
    · rw [runSnapshots_cons]
      show (HttpRequest.handleStream parse s st).2 ++ _ = _
      rw [ha3, hb3]
      exact seg_append parse L m m1 m2 ha1 hb1 (StreamInv_le _ _ _ hb2)

lemma runSnapshots_replicate {α : Type} (parse : List Char → Option α)
    (L : List (List Char)) (hL : GoodLines parse L) (k : Nat) (st : PollBufState) (m : Nat) :
    StreamInv L.length st m →
    ∃ m', m ≤ m' ∧ min L.length (m + k) ≤ m' ∧
      StreamInv L.length (runSnapshots parse st (List.replicate k (joinNl L))).1 m' ∧
      (runSnapshots parse st (List.replicate k (joinNl L))).2 = seg parse L m m' := by
  induction k generalizing st m with
  | zero =>
    intro hInv
    exact ⟨m, Nat.le_refl m, by have := StreamInv_le _ _ _ hInv; omega, hInv,
      (seg_refl parse L m).symm⟩
  | succ k ih =>
    intro hInv
    rw [List.replicate_succ]
    obtain ⟨m1, ha1, ha2, ha3, ha4⟩ :=
      handleStream_step parse L hL (joinNl L) (List.prefix_refl _) st m hInv
    obtain ⟨m2, hb1, hbmin, hb2, hb3⟩ := ih _ m1 ha2
    have hm0n : m ≤ L.length := StreamInv_le _ _ _ hInv
    have hm1n : m1 ≤ L.length := StreamInv_le _ _ _ ha2
    have hm2n : m2 ≤ L.length := StreamInv_le _ _ _ hb2
    refine ⟨m2, le_trans ha1 hb1, ?_, ?_, ?_⟩
    · by_cases hlt : m < L.length
      · have := ha4 rfl hlt
        omega
      · omega
    · rw [runSnapshots_cons]
      exact hb2
    · rw [runSnapshots_cons]
      show (HttpRequest.handleStream parse (joinNl L) st).2 ++ _ = _
      rw [ha3, hb3]
      exact seg_append parse L m m1 m2 ha1 hb1 hm2n

/-- C1 amended: for a nonempty final message stream with lines `L` (each
newline-terminated, no line containing a newline, every line after the first
nonempty, parseable, and with no parseable proper prefix), processing any
snapshots that are prefixes of the final stream, followed by processing the
complete final stream once per line, emits exactly the parsed messages of the
final stream after its first line, in order, once each.  (The handler's read
index starts at 1, so the stream's first line is skipped by design, and since
one invocation consumes at most one new line the final snapshot must be
re-processed to quiescence.) -/
theorem c1_amended_replay {α : Type} (parse : List Char → Option α)
    (L ss : List (List Char)) (hL : GoodLines parse L) (hne : L ≠ [])
    (hss : ∀ s ∈ ss, s <+: joinNl L) :
    (runSnapshots parse HttpRequestLongPoll.initState
        (ss ++ List.replicate L.length (joinNl L))).2 =
      List.filterMap parse (L.drop 1) := by
  have hn1 : 1 ≤ L.length := List.length_pos.mpr hne
  have hInv0 : StreamInv L.length HttpRequestLongPoll.initState 1 :=
    Or.inl ⟨Nat.le_refl 1, hn1, rfl⟩
  obtain ⟨m1, ha1, ha2, ha3⟩ :=
    runSnapshots_inv parse L hL ss HttpRequestLongPoll.initState 1 hss hInv0
  obtain ⟨m2, hb1, hbmin, hb2, hb3⟩ :=
    runSnapshots_replicate parse L hL L.length
      (runSnapshots parse HttpRequestLongPoll.initState ss).1 m1 ha2
  have hm2n : m2 ≤ L.length := StreamInv_le _ _ _ hb2
  have hm2 : m2 = L.length := by omega
  rw [runSnapshots_append]
  show (runSnapshots parse HttpRequestLongPoll.initState ss).2 ++ _ = _
  rw [ha3, hb3, seg_append parse L 1 m1 m2 ha1 hb1 hm2n, hm2]
  unfold seg
  rw [List.take_length]

/-- C1 witness: the two-line final stream `"a;\nm;\n"` presented as the partial
snapshot `"a"` followed by the complete stream, replayed to quiescence, emits
exactly the parsed messages after the first line. -/
theorem c1_witness :
    GoodLines testParse [['a', ';'], ['m', ';']] ∧
    (runSnapshots testParse HttpRequestLongPoll.initState
        ([['a']] ++ List.replicate 2 (joinNl [['a', ';'], ['m', ';']]))).2 =
      List.filterMap testParse (List.drop 1 [['a', ';'], ['m', ';']]) :=
  ⟨by unfold GoodLines; decide, c1_amended_replay testParse [['a', ';'], ['m', ';']]
    [['a']] (by unfold GoodLines; decide) (by decide) (by decide)⟩
